import Mathlib

/-!
Verification of the rent-recovery decision and batching engine of the
`sol_tool` repository.  The TypeScript sources are shallowly embedded:
lamport amounts (JavaScript numbers holding u64 values) become `Int`,
byte sizes become `Nat`, public keys and owner program ids become
`String`, and all effectful loops become explicit recursion over lists
with the environment (the ledger oracle, the signer) abstracted as a
function parameter.
-/

namespace SolTool

/-! ## Recoverability evaluator

`SolanaUtils.canCloseAccount` (src/utils/solana.ts): given the account's
lamport balance and the ledger-reported rent-exemption minimum it returns
`{ rentAmount, canClose, closeAmount }` with
`canClose = lamports > rentExemptAmount` and
`closeAmount = canClose ? lamports - rentExemptAmount : 0`. -/

structure RentInfo where
  rentAmount : Int
  canClose : Bool
  closeAmount : Int
  deriving Repr, DecidableEq

def canCloseAccount (lamports rentExemptAmount : Int) : RentInfo :=
  { rentAmount := rentExemptAmount
    canClose := decide (rentExemptAmount < lamports)
    closeAmount := if rentExemptAmount < lamports then lamports - rentExemptAmount else 0 }

/-- `checkAccountStatus` (AccountCloser.tsx): `minRequiredBalance = 5000`
(the network-fee buffer used by the status check). -/
def minRequiredBalance : Int := 5000

/-- `checkAccountStatus`: `totalRequired = Math.max(rentInfo.rentAmount, minRequiredBalance)`. -/
def checkTotalRequired (rentAmount : Int) : Int :=
  max rentAmount minRequiredBalance

/-- `checkAccountStatus`: `canClose = accountInfo.lamports >= totalRequired`. -/
def checkCanClose (lamports rentAmount : Int) : Bool :=
  decide (checkTotalRequired rentAmount ≤ lamports)

/-! `handleCloseAccount` (AccountCloser.tsx, fee math before building the
transaction): `estimatedFee = 5000`, `safetyBuffer = 0`,
`totalFee = estimatedFee + safetyBuffer`,
`transferAmount = Math.max(0, accountInfo.lamports - totalFee)`. -/

def estimatedFee : Int := 5000

def safetyBuffer : Int := 0

def totalFee : Int := estimatedFee + safetyBuffer

def transferAmount (lamports : Int) : Int :=
  max 0 (lamports - totalFee)

/-- Modelled from the spec: the retained amount — the lamports left in the
account by the evaluation — is the rent requirement when the account is
eligible for closing and the full balance otherwise, instantiated with
`canCloseAccount`'s own eligibility decision. -/
def retainedAmount (lamports rentExemptAmount : Int) : Int :=
  if (canCloseAccount lamports rentExemptAmount).canClose then rentExemptAmount else lamports

/-! ## Account classifier

`SolanaUtils.getAccountTypeInfo` (src/utils/solana.ts): the `executable`
flag overrides everything, then fixed `dataSize` boundaries decide the
label. -/

inductive AccountType where
  | programAccount
  | systemAccount
  | tokenAccount
  | smallDataAccount
  | largeDataAccount
  deriving Repr, DecidableEq

def getAccountTypeInfo (executable : Bool) (dataSize : Nat) : AccountType :=
  if executable then .programAccount
  else if dataSize = 0 then .systemAccount
  else if dataSize ≤ 32 then .tokenAccount
  else if dataSize ≤ 200 then .smallDataAccount
  else .largeDataAccount

/-! ## Closing-instruction planner

`handleCloseAccount` (AccountCloser.tsx, owner dispatch): the owner
program id decides which instruction is added to the transaction —
Token program → token CloseAccount, BPF loader → loader close, any
other owner → plain `SystemProgram.transfer` of `transferAmount`. -/

def tokenProgramId : String := "TokenkegQfeZyiNwAJbNbGKPFXCWuBvf9Ss623VQ5DA"

def bpfLoaderId : String := "BPFLoader1111111111111111111111111111111111"

inductive PlannedInstruction where
  | tokenAccountClose (account destination owner : String)
  | programAccountClose (account destination : String)
  | transfer (fromPubkey toPubkey : String) (amount : Int)
  deriving Repr, DecidableEq

def planCloseInstruction (owner accountToClose destination : String)
    (amount : Int) : PlannedInstruction :=
  if owner = tokenProgramId then
    .tokenAccountClose accountToClose destination accountToClose
  else if owner = bpfLoaderId then
    .programAccountClose accountToClose destination
  else
    .transfer accountToClose destination amount

/-! ## Private-key list parser

`parsePrivateKeys` (BatchWalletManager.tsx):
`input.split('\n').map(trim).filter(len>0).map(line => line.includes(',') ? line.split(',')[0].trim() : line)`.
Strings are modelled as `List Char`; `splitOnChar` mirrors JavaScript
`String.prototype.split` with a one-character separator (`"".split`
yields `[""]`, separators at the ends yield empty fields). -/

def isSpaceChar (c : Char) : Bool := c.isWhitespace

def splitOnChar (sep : Char) : List Char → List (List Char)
  | [] => [[]]
  | c :: cs =>
    if c = sep then [] :: splitOnChar sep cs
    else
      match splitOnChar sep cs with
      | [] => [[c]]
      | r :: rs => (c :: r) :: rs

def trimChars (l : List Char) : List Char :=
  ((l.dropWhile isSpaceChar).reverse.dropWhile isSpaceChar).reverse

/-- The non-blank lines: split on newline, trim each line, drop empties. -/
def nonBlankLines (input : List Char) : List (List Char) :=
  ((splitOnChar '\n' input).map trimChars).filter (fun l => l.length ≠ 0)

/-- The per-line step of the final `.map`: text before the first comma,
trimmed, when the line contains a comma; the line itself otherwise. -/
def entryOfLine (line : List Char) : List Char :=
  if line.contains ',' then trimChars ((splitOnChar ',' line).headD [])
  else line

def parsePrivateKeys (input : List Char) : List (List Char) :=
  (nonBlankLines input).map entryOfLine

/-! ## Batch scheduler

`recoverAllWallets` (BatchWalletManager.tsx):
`for (let i = 0; i < all.length; i += max) batches.push(all.slice(i, i + max))`.
`chunksAux` carries `input.length` as structural fuel so the definition
computes by `rfl`; for `max ≥ 1` the loop performs at most `input.length`
iterations, so the fuel is never exhausted (for `max = 0` the source loop
would not terminate; every theorem below assumes `0 < max`). -/

def chunksAux (maxPerBatch : Nat) : Nat → List α → List (List α)
  | 0, _ => []
  | _ + 1, [] => []
  | fuel + 1, x :: xs =>
    (x :: xs).take maxPerBatch :: chunksAux maxPerBatch fuel ((x :: xs).drop maxPerBatch)

def chunks (maxPerBatch : Nat) (l : List α) : List (List α) :=
  chunksAux maxPerBatch l.length l

/-! ## Recovery orchestrator

`recoverAllWallets` (BatchWalletManager.tsx, batched variant).  The
wallet-preparation loop turns each scanned wallet into a SOL transfer
(when `solBalance > 5000`, amount `solBalance - 5000`) followed by one
token CloseAccount instruction per zero-balance token account; the
instructions of all wallets are concatenated in wallet order. -/

structure WalletData where
  publicKey : String
  solBalance : Int
  zeroBalanceTokens : List (String × Int)
  deriving Repr, DecidableEq

inductive RecInstr where
  | transfer (fromPubkey toPubkey : String) (amount : Int)
  | closeToken (account destination owner : String) (rentAmount : Int)
  deriving Repr, DecidableEq

def walletInstructions (payer : String) (w : WalletData) : List RecInstr :=
  (if 5000 < w.solBalance then
    [RecInstr.transfer w.publicKey payer (w.solBalance - 5000)]
  else []) ++
    w.zeroBalanceTokens.map (fun t => RecInstr.closeToken t.1 payer w.publicKey t.2)

def allInstructions (payer : String) (ws : List WalletData) : List RecInstr :=
  (ws.map (walletInstructions payer)).flatten

def maxInstructionsPerTransaction : Nat := 20

def estimatedFeePerTransaction : Int := 5000

def recoverSafetyBuffer : Int := 10000

/-- `totalRequiredFee = (estimatedFeePerTransaction + safetyBuffer) * batches.length`. -/
def totalRequiredFee (numBatches : Nat) : Int :=
  (estimatedFeePerTransaction + recoverSafetyBuffer) * numBatches

/-- `totalSolRecovered`: sum of the amounts of the transfer instructions. -/
def totalSolOf (instrs : List RecInstr) : Int :=
  (instrs.map fun i =>
    match i with
    | .transfer _ _ a => a
    | .closeToken _ _ _ _ => 0).sum

/-- `totalRentRecovered`: sum of the rents of the closeToken instructions. -/
def totalRentOf (instrs : List RecInstr) : Int :=
  (instrs.map fun i =>
    match i with
    | .transfer _ _ _ => 0
    | .closeToken _ _ _ r => r).sum

/-- The result of the per-batch submission loop: the indices of the
batches that were signed, broadcast and confirmed, and whether the loop
was left through a thrown error.  The loop body (`sign`, `send`,
`confirm` on batch `i`, abstracted as `submitOk i`) has no try/catch of
its own, so the first failing batch throws out of the loop: no later
batch is processed. -/
structure SubmitTrace where
  submitted : List Nat
  aborted : Bool
  deriving Repr, DecidableEq

def submitLoop (submitOk : Nat → Bool) : Nat → List (List RecInstr) → SubmitTrace
  | _, [] => ⟨[], false⟩
  | i, _ :: rest =>
    if submitOk i then
      let t := submitLoop submitOk (i + 1) rest
      ⟨i :: t.submitted, t.aborted⟩
    else ⟨[], true⟩

/-- The user-visible outcome of one `recoverAllWallets` run: the error
message (if `setError` was called), the `recoveryResult` counts
(success- and failed-wallet counts plus recovered totals, if set), and
the indices of the batches actually submitted. -/
structure RecoveryOutcome where
  errorMsg : Option String
  recoveryResult : Option (Nat × Nat × Int × Int)
  submittedBatches : List Nat
  deriving Repr, DecidableEq

/-- `recoverAllWallets` (BatchWalletManager.tsx, batched variant), with
the environment abstracted: `payerBalance` is the fee payer's balance
and `submitOk i` tells whether signing/broadcast/confirmation of batch
`i` succeeds.  An empty wallet list exits first through the
`walletDataList.length === 0` guard with its own error message.  In
this pure model the wallet-preparation loop cannot throw, so
`successCount = ws.length` and `failedCount = 0` — those counts count
prepared wallets, not batches.  A submission failure propagates to the
surrounding catch: `recoveryResult` stays unset and the error message
is shown. -/
def recoverAllWallets (payer : String) (payerBalance : Int) (ws : List WalletData)
    (submitOk : Nat → Bool) : RecoveryOutcome :=
  if ws.length = 0 then
    { errorMsg := some "没有可回收的钱包数据", recoveryResult := none, submittedBatches := [] }
  else
  let instrs := allInstructions payer ws
  if instrs.length = 0 then
    { errorMsg := some "没有可回收的资产", recoveryResult := none, submittedBatches := [] }
  else
    let batches := chunks maxInstructionsPerTransaction instrs
    if payerBalance < totalRequiredFee batches.length then
      { errorMsg := some "代付钱包余额不足", recoveryResult := none, submittedBatches := [] }
    else
      let t := submitLoop submitOk 0 batches
      if t.aborted then
        { errorMsg := some "批量回收失败", recoveryResult := none,
          submittedBatches := t.submitted }
      else
        { errorMsg := none,
          recoveryResult := some (ws.length, 0, totalSolOf instrs, totalRentOf instrs),
          submittedBatches := t.submitted }

/-- `batchCloseZeroBalanceAccounts` (AccountCloser.tsx): one transaction
per zero-balance token account, with a try/catch inside the loop —
account `i`'s failure increments `failedCount` and the loop continues.
Returns `(successCount, failedCount)`. -/
def batchCloseLoop (ok : Nat → Bool) : Nat → List α → Nat × Nat
  | _, [] => (0, 0)
  | i, _ :: rest =>
    let t := batchCloseLoop ok (i + 1) rest
    if ok i then (t.1 + 1, t.2) else (t.1, t.2 + 1)

def batchCloseCounts (ok : Nat → Bool) (accounts : List α) : Nat × Nat :=
  batchCloseLoop ok 0 accounts

/-! ## Scanning

`scanAllWallets` (BatchWalletManager.tsx): the per-wallet `scanWallet`
call sits in a try/catch inside the loop; a failing wallet is logged and
skipped, the loop continues with the next key.  `scan` abstracts
`scanWallet` (`none` = the call threw). -/

def scanLoop (scan : String → Option WalletData) :
    List String → List WalletData → List WalletData
  | [], acc => acc
  | k :: ks, acc =>
    match scan k with
    | some w => scanLoop scan ks (acc ++ [w])
    | none => scanLoop scan ks acc

def scanAllWallets (scan : String → Option WalletData) (keys : List String) :
    List WalletData :=
  scanLoop scan keys []

/-! ## Concrete inputs used by witnesses and counterexamples -/

/-- A scanned wallet with no SOL balance and 41 zero-balance token
accounts of 100 lamports rent each: its instruction list has 41
entries, which `chunks 20` splits into batches of 20, 20 and 1. -/
def demoWallet : WalletData :=
  { publicKey := "W1", solBalance := 0, zeroBalanceTokens := List.replicate 41 ("T", 100) }

/-- A submission environment in which exactly the second batch
(index 1) fails. -/
def demoSubmitOk (i : Nat) : Bool := i != 1

/-- A scanned wallet with nothing to recover: its SOL balance is below
the 5000-lamport transfer threshold and it has no zero-balance token
accounts, so it contributes no instructions. -/
def demoEmptyWallet : WalletData :=
  { publicKey := "W2", solBalance := 3000, zeroBalanceTokens := [] }

def demoInstrs : List RecInstr :=
  [.transfer "a" "b" 1, .transfer "c" "d" 2, .closeToken "e" "f" "g" 3]

/-- A scanning environment in which the key "bad" throws and every other
key yields a wallet. -/
def demoScan (k : String) : Option WalletData :=
  if k = "bad" then none else some { publicKey := k, solBalance := 0, zeroBalanceTokens := [] }

/-- The two-line input "a\n b,c " (second line has surrounding blanks and
a comma). -/
def demoParseInput : List Char := ['a', '\n', ' ', 'b', ',', 'c', ' ']

/-! ## Theorems -/

/-- Claim C1, counterexample.  With rent requirement 4000 and balance
5000 the status check deems the account eligible (`5000 ≥ max(4000,
5000)`), the balance equals `totalRequired = 5000`, yet the recoverable
amount it reports (`rentInfo.closeAmount`) is `5000 - 4000 = 1000`, not
`lamportBalance - totalRequired = 0`: the fee floor enters the
eligibility test but not the recoverable amount.  Moreover
`canCloseAccount` itself uses a strict comparison, so at a balance
exactly equal to the rent requirement its own `canClose` is `false`. -/
theorem closeDecision_counterexample :
    checkCanClose 5000 4000 = true ∧
    checkTotalRequired 4000 = 5000 ∧
    (canCloseAccount 5000 4000).closeAmount = 1000 ∧
    (canCloseAccount 5000 4000).closeAmount ≠ 5000 - checkTotalRequired 4000 ∧
    (canCloseAccount 2039280 2039280).canClose = false := by
  decide

/-- Claim C1, amended: the status check's eligibility is
`lamports ≥ max(rentRequirement, 5000)`; `canCloseAccount`'s own
`canClose` is the strict test `rentRequirement < lamports` with no fee
floor; and the reported recoverable amount equals
`lamports - totalRequired` under eligibility whenever the rent
requirement is at least the fee floor (in particular it is `0` when the
balance exactly equals the requirement). -/
theorem closeDecision_spec (lamports rentAmount : Int) :
    (checkCanClose lamports rentAmount = true ↔ checkTotalRequired rentAmount ≤ lamports) ∧
    ((canCloseAccount lamports rentAmount).canClose = true ↔ rentAmount < lamports) ∧
    (minRequiredBalance ≤ rentAmount → checkCanClose lamports rentAmount = true →
      (canCloseAccount lamports rentAmount).closeAmount
        = lamports - checkTotalRequired rentAmount) := by
  refine ⟨by simp [checkCanClose], by simp [canCloseAccount], ?_⟩
  intro hr he
  have hle : checkTotalRequired rentAmount ≤ lamports := by
    simpa [checkCanClose] using he
  have htr : checkTotalRequired rentAmount = rentAmount := max_eq_left hr
  rw [htr] at hle ⊢
  rcases lt_or_eq_of_le hle with h | h
  · simp [canCloseAccount, h]
  · simp [canCloseAccount, ← h]

/-- Witness for the amended claim C1 at the spec's own token-account
example: balance 2,039,280 equal to the rent requirement, fee floor
5000 — eligible with recoverable amount 0. -/
theorem closeDecision_spec_witness :
    minRequiredBalance ≤ (2039280 : Int) ∧
    checkCanClose 2039280 2039280 = true ∧
    (canCloseAccount 2039280 2039280).closeAmount
      = 2039280 - checkTotalRequired 2039280 := by
  refine ⟨by decide, ?_, ?_⟩
  · exact (closeDecision_spec 2039280 2039280).1.mpr (by decide)
  · exact (closeDecision_spec 2039280 2039280).2.2 (by decide)
      ((closeDecision_spec 2039280 2039280).1.mpr (by decide))

/-- Claim C4: lamport conservation — for every balance and rent
requirement, `closeAmount` plus the retained amount (the rent
requirement when `canClose`, the whole balance otherwise) equals the
balance exactly. -/
theorem lamport_conservation (lamports rentExemptAmount : Int) :
    (canCloseAccount lamports rentExemptAmount).closeAmount
      + retainedAmount lamports rentExemptAmount = lamports := by
  unfold retainedAmount canCloseAccount
  by_cases h : rentExemptAmount < lamports
  · simp [h]
  · simp [h]

/-- Claim C6: classifier boundaries — `executable = true` always yields
the program-account label; otherwise data length 0 is a system account,
1..32 a token account, 33..200 a small-data account and anything above
200 a large-data account. -/
theorem classifier_boundaries (d : Nat) :
    getAccountTypeInfo true d = .programAccount ∧
    (d = 0 → getAccountTypeInfo false d = .systemAccount) ∧
    (1 ≤ d → d ≤ 32 → getAccountTypeInfo false d = .tokenAccount) ∧
    (33 ≤ d → d ≤ 200 → getAccountTypeInfo false d = .smallDataAccount) ∧
    (201 ≤ d → getAccountTypeInfo false d = .largeDataAccount) := by
  refine ⟨rfl, ?_, ?_, ?_, ?_⟩
  · intro h
    simp [getAccountTypeInfo, h]
  · intro h1 h2
    simp [getAccountTypeInfo, show d ≠ 0 by omega, h2]
  · intro h1 h2
    simp [getAccountTypeInfo, show d ≠ 0 by omega, show ¬d ≤ 32 by omega, h2]
  · intro h
    simp [getAccountTypeInfo, show d ≠ 0 by omega, show ¬d ≤ 32 by omega,
      show ¬d ≤ 200 by omega]

/-- Witness for claim C6 at the boundary values 32, 200 and 201 (and the
executable override at data length 200). -/
theorem classifier_boundaries_witness :
    getAccountTypeInfo true 200 = .programAccount ∧
    getAccountTypeInfo false 0 = .systemAccount ∧
    getAccountTypeInfo false 32 = .tokenAccount ∧
    getAccountTypeInfo false 200 = .smallDataAccount ∧
    getAccountTypeInfo false 201 = .largeDataAccount :=
  ⟨(classifier_boundaries 200).1,
   (classifier_boundaries 0).2.1 rfl,
   (classifier_boundaries 32).2.2.1 (by decide) (by decide),
   (classifier_boundaries 200).2.2.2.1 (by decide) (by decide),
   (classifier_boundaries 201).2.2.2.2 (by decide)⟩

/-- Claim C7: the evaluator never produces a negative recoverable
amount, and under eligibility the recoverable amount never exceeds the
balance; likewise the transfer amount built by `handleCloseAccount` is
clamped at 0 and never exceeds a non-negative balance. -/
theorem evaluator_safety (lamports rentExemptAmount : Int) :
    0 ≤ (canCloseAccount lamports rentExemptAmount).closeAmount ∧
    (0 ≤ rentExemptAmount → (canCloseAccount lamports rentExemptAmount).canClose = true →
      (canCloseAccount lamports rentExemptAmount).closeAmount ≤ lamports) ∧
    0 ≤ transferAmount lamports ∧
    (0 ≤ lamports → transferAmount lamports ≤ lamports) := by
  refine ⟨?_, ?_, ?_, ?_⟩
  · unfold canCloseAccount
    by_cases h : rentExemptAmount < lamports
    · simp [h]
      omega
    · simp [h]
  · intro hr hc
    have h : rentExemptAmount < lamports := by
      simpa [canCloseAccount] using hc
    simp [canCloseAccount, h]
    omega
  · unfold transferAmount
    exact le_max_left 0 _
  · intro h
    unfold transferAmount totalFee estimatedFee safetyBuffer
    omega

/-- Witness for claim C7 at balance 10000, rent requirement 2000. -/
theorem evaluator_safety_witness :
    (0 : Int) ≤ 2000 ∧ (canCloseAccount 10000 2000).canClose = true ∧
    (canCloseAccount 10000 2000).closeAmount ≤ 10000 ∧
    transferAmount 10000 ≤ 10000 :=
  ⟨by decide, by decide,
   (evaluator_safety 10000 2000).2.1 (by decide) (by decide),
   (evaluator_safety 10000 2000).2.2.2 (by decide)⟩

/-- Claim C3, counterexample.  An account owned by an unrecognized
program (neither the Token program nor the BPF loader — here a made-up
owner id) is planned as a plain transfer: the code's final `else`
branch emits `SystemProgram.transfer` for every unrecognized owner and
no `UnsupportedOwner` error exists anywhere in the planner. -/
theorem planner_counterexample :
    planCloseInstruction "FakeOwner11111111111111111111111111111111" "acct" "dest" 7
      = .transfer "acct" "dest" 7 := by
  decide

/-- Claim C3, amended: the owner dispatch recognizes exactly the Token
program (token CloseAccount instruction, never a transfer) and the BPF
loader (loader close instruction); every other owner — the System
program and any unrecognized program alike — silently receives a plain
transfer. -/
theorem planner_dispatch (owner accountToClose destination : String) (amount : Int) :
    (owner = tokenProgramId →
      planCloseInstruction owner accountToClose destination amount
        = .tokenAccountClose accountToClose destination accountToClose) ∧
    (owner = bpfLoaderId → owner ≠ tokenProgramId →
      planCloseInstruction owner accountToClose destination amount
        = .programAccountClose accountToClose destination) ∧
    (owner ≠ tokenProgramId → owner ≠ bpfLoaderId →
      planCloseInstruction owner accountToClose destination amount
        = .transfer accountToClose destination amount) := by
  refine ⟨fun h => ?_, fun h hn => ?_, fun h1 h2 => ?_⟩
  · simp [planCloseInstruction, h]
  · subst h
    simp [planCloseInstruction, hn]
  · simp [planCloseInstruction, h1, h2]

/-- Witness for the amended claim C3: a token account is planned as a
token CloseAccount, and a system-owned account as a transfer. -/
theorem planner_dispatch_witness :
    planCloseInstruction tokenProgramId "acct" "dest" 0
      = .tokenAccountClose "acct" "dest" "acct" ∧
    planCloseInstruction "11111111111111111111111111111111" "acct" "dest" 5
      = .transfer "acct" "dest" 5 :=
  ⟨(planner_dispatch tokenProgramId "acct" "dest" 0).1 rfl,
   (planner_dispatch "11111111111111111111111111111111" "acct" "dest" 5).2.2
     (by decide) (by decide)⟩

theorem trimChars_eq (l : List Char) :
    trimChars l = List.rdropWhile isSpaceChar (l.dropWhile isSpaceChar) := rfl

theorem dropWhile_trimChars (l : List Char) :
    (trimChars l).dropWhile isSpaceChar = trimChars l := by
  rw [List.dropWhile_eq_self_iff]
  intro hl
  have hpre : trimChars l <+: l.dropWhile isSpaceChar := by
    rw [trimChars_eq]
    exact List.rdropWhile_prefix _ _
  have hlen : 0 < (l.dropWhile isSpaceChar).length := lt_of_lt_of_le hl hpre.length_le
  have hne := List.dropWhile_get_zero_not isSpaceChar l hlen
  have heq : (trimChars l).get ⟨0, hl⟩ = (l.dropWhile isSpaceChar).get ⟨0, hlen⟩ := by
    simpa using hpre.getElem (by simpa using hl)
  rw [heq]
  exact hne

theorem trimChars_idem (l : List Char) : trimChars (trimChars l) = trimChars l := by
  have h1 : trimChars (trimChars l)
      = List.rdropWhile isSpaceChar ((trimChars l).dropWhile isSpaceChar) := rfl
  rw [h1, dropWhile_trimChars, trimChars_eq]
  exact List.rdropWhile_idempotent _ _

theorem mem_nonBlankLines_trim {input line : List Char} (h : line ∈ nonBlankLines input) :
    trimChars line = line := by
  have h2 : line ∈ (splitOnChar '\n' input).map trimChars := List.mem_of_mem_filter h
  rcases List.mem_map.mp h2 with ⟨y, _, rfl⟩
  exact trimChars_idem y

theorem entryOfLine_trim {input line : List Char} (h : line ∈ nonBlankLines input) :
    trimChars (entryOfLine line) = entryOfLine line := by
  unfold entryOfLine
  split
  · exact trimChars_idem _
  · exact mem_nonBlankLines_trim h

/-- Claim C10, counterexample.  The non-blank line ",abc" parses to the
empty entry: the blank-line filter runs before the comma split, so a
line whose text before its first comma is empty yields an empty-string
entry. -/
theorem parser_counterexample :
    parsePrivateKeys [',', 'a', 'b', 'c'] = [[]] ∧
    [] ∈ parsePrivateKeys [',', 'a', 'b', 'c'] := by
  decide

/-- Claim C10, amended: the parser returns exactly one entry per
non-blank line, in line order; every entry is its own trim (no
surrounding whitespace); the entry of a line containing a comma is the
trimmed text before the first comma, and of any other line the trimmed
line itself — but an entry may be the empty string, namely when the
text before a non-blank line's first comma is entirely whitespace. -/
theorem parsePrivateKeys_spec (input : List Char) :
    (parsePrivateKeys input).length = (nonBlankLines input).length ∧
    (∀ e ∈ parsePrivateKeys input, trimChars e = e) ∧
    (∀ i (h1 : i < (parsePrivateKeys input).length)
        (h2 : i < (nonBlankLines input).length),
      (parsePrivateKeys input).get ⟨i, h1⟩
        = entryOfLine ((nonBlankLines input).get ⟨i, h2⟩)) ∧
    (∀ line ∈ nonBlankLines input, line.contains ',' = false → entryOfLine line = line) := by
  refine ⟨List.length_map _ _, ?_, ?_, ?_⟩
  · intro e he
    rcases List.mem_map.mp he with ⟨line, hline, rfl⟩
    exact entryOfLine_trim hline
  · intro i h1 h2
    simp [parsePrivateKeys]
  · intro line _ hc
    unfold entryOfLine
    rw [hc]
    simp

/-- Witness for the amended claim C10 on the two-line input
"a\n b,c ": two entries, positionally matching their lines, and the
second entry (from the comma line) is trim-stable. -/
theorem parsePrivateKeys_spec_witness :
    (parsePrivateKeys demoParseInput).length = (nonBlankLines demoParseInput).length ∧
    trimChars ['b'] = ['b'] ∧
    (parsePrivateKeys demoParseInput).get ⟨1, by decide⟩
      = entryOfLine ((nonBlankLines demoParseInput).get ⟨1, by decide⟩) :=
  ⟨(parsePrivateKeys_spec demoParseInput).1,
   (parsePrivateKeys_spec demoParseInput).2.1 ['b'] (by decide),
   (parsePrivateKeys_spec demoParseInput).2.2.1 1 (by decide) (by decide)⟩

theorem chunksAux_nil (m fuel : Nat) : chunksAux (α := α) m fuel [] = [] := by
  cases fuel <;> rfl

theorem chunksAux_flatten (m : Nat) (hm : 0 < m) :
    ∀ (fuel : Nat) (l : List α), l.length ≤ fuel → (chunksAux m fuel l).flatten = l := by
  intro fuel
  induction fuel with
  | zero =>
    intro l hl
    cases l with
    | nil => rfl
    | cons x xs => simp at hl
  | succ n ih =>
    intro l hl
    cases l with
    | nil => rfl
    | cons x xs =>
      have hlen : ((x :: xs).drop m).length ≤ n := by
        simp only [List.length_drop, List.length_cons]
        simp only [List.length_cons] at hl
        omega
      show ((x :: xs).take m :: chunksAux m n ((x :: xs).drop m)).flatten = x :: xs
      rw [List.flatten_cons, ih _ hlen, List.take_append_drop]

theorem chunksAux_length_le (m : Nat) :
    ∀ (fuel : Nat) (l : List α), ∀ b ∈ chunksAux m fuel l, b.length ≤ m := by
  intro fuel
  induction fuel with
  | zero =>
    intro l b hb
    simp [chunksAux] at hb
  | succ n ih =>
    intro l b hb
    cases l with
    | nil => simp [chunksAux] at hb
    | cons x xs =>
      have hstep : chunksAux m (n + 1) (x :: xs)
          = (x :: xs).take m :: chunksAux m n ((x :: xs).drop m) := rfl
      rw [hstep] at hb
      rcases List.mem_cons.mp hb with hb | hb
      · subst hb
        simp [List.length_take]
      · exact ih _ b hb

theorem chunksAux_count (m : Nat) (hm : 0 < m) :
    ∀ (fuel : Nat) (l : List α), l.length ≤ fuel →
      (chunksAux m fuel l).length = (l.length + m - 1) / m := by
  intro fuel
  induction fuel with
  | zero =>
    intro l hl
    cases l with
    | nil =>
      simp [chunksAux, Nat.div_eq_of_lt (by omega : m - 1 < m)]
    | cons x xs => simp at hl
  | succ n ih =>
    intro l hl
    cases l with
    | nil =>
      simp [chunksAux, Nat.div_eq_of_lt (by omega : m - 1 < m)]
    | cons x xs =>
      show (chunksAux m n ((x :: xs).drop m)).length + 1 = _
      by_cases hk : (x :: xs).length ≤ m
      · rw [List.drop_eq_nil_of_le hk, chunksAux_nil]
        have h1 : 1 * m ≤ (x :: xs).length + m - 1 := by
          simp only [List.length_cons]
          omega
        have h2 : (x :: xs).length + m - 1 < (1 + 1) * m := by
          simp only [List.length_cons] at hk ⊢
          omega
        rw [Nat.div_eq_of_lt_le h1 h2]
        rfl
      · have hlen : ((x :: xs).drop m).length ≤ n := by
          simp only [List.length_drop, List.length_cons]
          simp only [List.length_cons] at hl
          omega
        rw [ih _ hlen]
        have h3 : ((x :: xs).drop m).length + m - 1 = (x :: xs).length - 1 := by
          simp only [List.length_drop, List.length_cons] at *
          omega
        have h4 : (x :: xs).length + m - 1 = ((x :: xs).length - 1) + m := by
          simp only [List.length_cons]
          omega
        rw [h3, h4, Nat.add_div_right _ hm]

theorem chunksAux_dropLast (m : Nat) (hm : 0 < m) :
    ∀ (fuel : Nat) (l : List α), l.length ≤ fuel →
      ∀ b ∈ (chunksAux m fuel l).dropLast, b.length = m := by
  intro fuel
  induction fuel with
  | zero =>
    intro l hl b hb
    simp [chunksAux] at hb
  | succ n ih =>
    intro l hl b hb
    cases l with
    | nil => simp [chunksAux] at hb
    | cons x xs =>
      have hstep : chunksAux m (n + 1) (x :: xs)
          = (x :: xs).take m :: chunksAux m n ((x :: xs).drop m) := rfl
      rw [hstep] at hb
      cases hrest : chunksAux m n ((x :: xs).drop m) with
      | nil =>
        rw [hrest] at hb
        simp at hb
      | cons r rs =>
        rw [hrest, List.dropLast_cons₂] at hb
        have hlen : ((x :: xs).drop m).length ≤ n := by
          simp only [List.length_drop, List.length_cons]
          simp only [List.length_cons] at hl
          omega
        rcases List.mem_cons.mp hb with hb | hb
        · have hne : (x :: xs).drop m ≠ [] := by
            intro hdrop
            rw [hdrop, chunksAux_nil] at hrest
            exact List.noConfusion hrest
          have hmlt : m < (x :: xs).length := by
            by_contra hc
            exact hne (List.drop_eq_nil_of_le (by omega))
          subst hb
          rw [List.length_take]
          exact min_eq_left (le_of_lt hmlt)
        · have := ih _ hlen b
          rw [hrest] at this
          exact this hb

/-- Claim C5: the batch scheduler partitions `N > 0` instructions with
batch limit `M > 0` into exactly `⌈N/M⌉` batches in strict input order:
every batch except possibly the last has length `M`, no batch exceeds
`M`, the batch lengths sum to `N`, and concatenating the batches
reproduces the original instruction list exactly. -/
theorem chunks_spec (l : List RecInstr) (m : Nat) (hm : 0 < m) (hl : 0 < l.length) :
    (chunks m l).length = (l.length + m - 1) / m ∧
    (∀ b ∈ (chunks m l).dropLast, b.length = m) ∧
    (∀ b ∈ chunks m l, b.length ≤ m) ∧
    ((chunks m l).map List.length).sum = l.length ∧
    (chunks m l).flatten = l := by
  have hflat := chunksAux_flatten m hm l.length l le_rfl
  refine ⟨chunksAux_count m hm l.length l le_rfl,
    chunksAux_dropLast m hm l.length l le_rfl,
    chunksAux_length_le m l.length l, ?_, hflat⟩
  rw [← List.length_flatten]
  rw [show (chunks m l).flatten = l from hflat]

/-- Witness for claim C5: three instructions with batch limit 2 give
two batches (`⌈3/2⌉`), the first full, whose concatenation is the
input. -/
theorem chunks_spec_witness :
    (0 : Nat) < 2 ∧ 0 < demoInstrs.length ∧ (chunks 2 demoInstrs).flatten = demoInstrs ∧
    (chunks 2 demoInstrs).length = (demoInstrs.length + 2 - 1) / 2 :=
  ⟨by decide, by decide,
   (chunks_spec demoInstrs 2 (by decide) (by decide)).2.2.2.2,
   (chunks_spec demoInstrs 2 (by decide) (by decide)).1⟩

theorem scanLoop_eq (scan : String → Option WalletData) :
    ∀ (keys : List String) (acc : List WalletData),
      scanLoop scan keys acc = acc ++ keys.filterMap scan := by
  intro keys
  induction keys with
  | nil =>
    intro acc
    simp [scanLoop]
  | cons k ks ih =>
    intro acc
    cases h : scan k with
    | none => simp [scanLoop, h, ih]
    | some w => simp [scanLoop, h, ih]

/-- Claim C9: scanning never aborts on a per-wallet failure — the result
is exactly the successfully scanned wallets in input order
(`filterMap`), and a failing candidate in the middle of the list is
excluded while everything before and after it is still scanned. -/
theorem scanAllWallets_spec (scan : String → Option WalletData)
    (keys pre post : List String) (bad : String) :
    scanAllWallets scan keys = keys.filterMap scan ∧
    (scan bad = none →
      scanAllWallets scan (pre ++ bad :: post)
        = scanAllWallets scan pre ++ scanAllWallets scan post) := by
  have e : ∀ X, scanAllWallets scan X = X.filterMap scan := by
    intro X
    simpa using scanLoop_eq scan X []
  refine ⟨e keys, ?_⟩
  intro hbad
  rw [e, e, e, List.filterMap_append, List.filterMap_cons_none hbad]

/-- Witness for claim C9: with a scanner that throws on the key "bad",
scanning ["w1", "bad", "w2"] yields the wallets of "w1" and "w2" in
order, the failed candidate excluded. -/
theorem scanAllWallets_spec_witness :
    demoScan "bad" = none ∧
    scanAllWallets demoScan (["w1"] ++ "bad" :: ["w2"])
      = scanAllWallets demoScan ["w1"] ++ scanAllWallets demoScan ["w2"] :=
  ⟨by decide, (scanAllWallets_spec demoScan [] ["w1"] ["w2"] "bad").2 (by decide)⟩

theorem submitLoop_ok (submitOk : Nat → Bool) :
    ∀ (batches : List (List RecInstr)) (start : Nat),
      (∀ j, j < batches.length → submitOk (start + j) = true) →
      submitLoop submitOk start batches = ⟨List.range' start batches.length, false⟩ := by
  intro batches
  induction batches with
  | nil =>
    intro start _
    rfl
  | cons b rest ih =>
    intro start h
    have h0 : submitOk start = true := by simpa using h 0 (by simp)
    have ih' : submitLoop submitOk (start + 1) rest
        = ⟨List.range' (start + 1) rest.length, false⟩ := by
      refine ih (start + 1) ?_
      intro j hj
      have := h (j + 1) (by simp only [List.length_cons]; omega)
      rw [show start + 1 + j = start + (j + 1) by omega]
      exact this
    simp [submitLoop, h0, ih', List.range'_succ]

theorem submitLoop_abort (submitOk : Nat → Bool) :
    ∀ (batches : List (List RecInstr)) (start j : Nat),
      j < batches.length →
      (∀ i, i < j → submitOk (start + i) = true) →
      submitOk (start + j) = false →
      submitLoop submitOk start batches = ⟨List.range' start j, true⟩ := by
  intro batches
  induction batches with
  | nil =>
    intro start j hj
    simp at hj
  | cons b rest ih =>
    intro start j hj hpre hfail
    cases j with
    | zero =>
      have h0 : submitOk start = false := by simpa using hfail
      simp [submitLoop, h0, List.range']
    | succ k =>
      have h0 : submitOk start = true := by simpa using hpre 0 (Nat.succ_pos k)
      have ih' : submitLoop submitOk (start + 1) rest = ⟨List.range' (start + 1) k, true⟩ := by
        refine ih (start + 1) k ?_ ?_ ?_
        · simp only [List.length_cons] at hj
          omega
        · intro i hi
          have := hpre (i + 1) (Nat.succ_lt_succ hi)
          rw [show start + 1 + i = start + (i + 1) by omega]
          exact this
        · rw [show start + 1 + k = start + (k + 1) by omega]
          exact hfail
      simp [submitLoop, h0, ih', List.range'_succ]

theorem batchCloseLoop_spec (ok : Nat → Bool) :
    ∀ (accounts : List α) (start : Nat),
      batchCloseLoop ok start accounts
        = (((List.range' start accounts.length).filter (fun i => ok i)).length,
           ((List.range' start accounts.length).filter (fun i => !ok i)).length) := by
  intro accounts
  induction accounts with
  | nil =>
    intro start
    rfl
  | cons a rest ih =>
    intro start
    have step : batchCloseLoop ok start (a :: rest)
        = (if ok start then ((batchCloseLoop ok (start + 1) rest).1 + 1,
              (batchCloseLoop ok (start + 1) rest).2)
           else ((batchCloseLoop ok (start + 1) rest).1,
              (batchCloseLoop ok (start + 1) rest).2 + 1)) := rfl
    rw [step, ih]
    simp only [List.length_cons, List.range'_succ, List.filter_cons]
    cases h : ok start <;> simp [h]

/-- Claim C2, counterexample.  One wallet with 41 zero-balance token
accounts gives 3 batches (20 + 20 + 1).  Under an environment where
only batch 1 (the second batch) fails, the run submits batch 0 only —
batch 2 is never submitted — and ends in the run-level error with
`recoveryResult` never set: there is no successCount=2/failureCount=1
per-batch report. -/
theorem submission_counterexample :
    (chunks maxInstructionsPerTransaction (allInstructions "P" [demoWallet])).length = 3 ∧
    demoSubmitOk 0 = true ∧ demoSubmitOk 1 = false ∧ demoSubmitOk 2 = true ∧
    recoverAllWallets "P" 100000 [demoWallet] demoSubmitOk
      = ⟨some "批量回收失败", none, [0]⟩ := by
  refine ⟨rfl, rfl, rfl, rfl, rfl⟩

/-- Claim C2, amended: in `recoverAllWallets` the submission loop has no
per-batch error isolation — the first failing batch aborts the run, the
batches before it are the only ones submitted, and the error outcome
carries no per-batch counts; when every batch succeeds, the reported
success/failed counts are the prepared-wallet counts (`ws.length`, 0),
not batch counts.  Per-transaction isolation does hold in
`batchCloseZeroBalanceAccounts`, whose final counts are the numbers of
succeeded and failed single-account transactions. -/
theorem recover_submission_spec (payer : String) (payerBalance : Int)
    (ws : List WalletData) (submitOk : Nat → Bool) (j : Nat) :
    ((allInstructions payer ws).length ≠ 0 →
      ¬payerBalance < totalRequiredFee
        (chunks maxInstructionsPerTransaction (allInstructions payer ws)).length →
      j < (chunks maxInstructionsPerTransaction (allInstructions payer ws)).length →
      (∀ i, i < j → submitOk i = true) →
      submitOk j = false →
      recoverAllWallets payer payerBalance ws submitOk
        = ⟨some "批量回收失败", none, List.range j⟩) ∧
    ((allInstructions payer ws).length ≠ 0 →
      ¬payerBalance < totalRequiredFee
        (chunks maxInstructionsPerTransaction (allInstructions payer ws)).length →
      (∀ i, i < (chunks maxInstructionsPerTransaction (allInstructions payer ws)).length →
        submitOk i = true) →
      recoverAllWallets payer payerBalance ws submitOk
        = ⟨none,
            some (ws.length, 0, totalSolOf (allInstructions payer ws),
              totalRentOf (allInstructions payer ws)),
            List.range (chunks maxInstructionsPerTransaction (allInstructions payer ws)).length⟩) ∧
    (∀ (okTx : Nat → Bool) (accounts : List String),
      batchCloseCounts okTx accounts
        = (((List.range accounts.length).filter (fun i => okTx i)).length,
           ((List.range accounts.length).filter (fun i => !okTx i)).length)) := by
  refine ⟨?_, ?_, ?_⟩
  · intro hne hbal hj hpre hfail
    have hws : ws.length ≠ 0 := by
      intro h0
      obtain rfl := List.length_eq_zero.mp h0
      exact hne rfl
    have habort : submitLoop submitOk 0
        (chunks maxInstructionsPerTransaction (allInstructions payer ws))
        = ⟨List.range' 0 j, true⟩ := by
      refine submitLoop_abort submitOk _ 0 j hj ?_ ?_
      · intro i hi
        simpa using hpre i hi
      · simpa using hfail
    simp only [recoverAllWallets]
    rw [if_neg hws, if_neg hne, if_neg hbal, habort]
    simp [List.range_eq_range']
  · intro hne hbal hok
    have hws : ws.length ≠ 0 := by
      intro h0
      obtain rfl := List.length_eq_zero.mp h0
      exact hne rfl
    have hdone : submitLoop submitOk 0
        (chunks maxInstructionsPerTransaction (allInstructions payer ws))
        = ⟨List.range' 0
            (chunks maxInstructionsPerTransaction (allInstructions payer ws)).length,
           false⟩ := by
      refine submitLoop_ok submitOk _ 0 ?_
      intro i hi
      simpa using hok i hi
    simp only [recoverAllWallets]
    rw [if_neg hws, if_neg hne, if_neg hbal, hdone]
    simp [List.range_eq_range']
  · intro okTx accounts
    rw [batchCloseCounts, batchCloseLoop_spec, List.range_eq_range']

/-- Witness for the amended claim C2: the same 3-batch input under an
all-succeeding environment completes with the prepared-wallet counts
(1 wallet, 0 failures), recovered totals 0 SOL and 4100 lamports rent,
and all three batches submitted. -/
theorem recover_submission_spec_witness :
    recoverAllWallets "P" 100000 [demoWallet] (fun _ => true)
      = ⟨none, some (1, 0, 0, 4100), [0, 1, 2]⟩ := by
  have h := (recover_submission_spec "P" 100000 [demoWallet] (fun _ => true) 0).2.1
    (by decide) (by decide) (fun i _ => rfl)
  rw [h]
  rfl

/-- Claim C8, counterexample.  A nonempty wallet list that yields no
instructions (one wallet below the 5000-lamport threshold with no
zero-balance token accounts) reaches the empty-instruction guard, and
the orchestrator does not produce a neutral no-op report: it surfaces
the condition through the same user-visible error channel as run
failures (`setError('没有可回收的资产')`), sets no recovery report, and
no `SchedulingError` is involved anywhere (the guard fires in the
orchestrator before the scheduler is ever reached). -/
theorem emptyRecovery_counterexample :
    allInstructions "P" [demoEmptyWallet] = [] ∧
    (recoverAllWallets "P" 100000 [demoEmptyWallet] (fun _ => true)).errorMsg
      = some "没有可回收的资产" ∧
    (recoverAllWallets "P" 100000 [demoEmptyWallet] (fun _ => true)).recoveryResult = none ∧
    (recoverAllWallets "P" 100000 [demoEmptyWallet] (fun _ => true)).submittedBatches = [] := by
  refine ⟨rfl, rfl, rfl, rfl⟩

/-- Claim C8, amended: an empty wallet list exits even earlier with the
error "没有可回收的钱包数据"; when the wallet list is nonempty but the
collected instruction list is empty, the orchestrator returns early —
before batching, signing, or submitting anything — and reports the
condition as the error message "没有可回收的资产" (no recoverable
assets) rather than producing a recovery report; no scheduling error
type exists in the code. -/
theorem recover_empty_spec (payer : String) (payerBalance : Int)
    (ws : List WalletData) (submitOk : Nat → Bool)
    (hws : ws.length ≠ 0) (h : allInstructions payer ws = []) :
    recoverAllWallets payer payerBalance ws submitOk
      = ⟨some "没有可回收的资产", none, []⟩ := by
  simp only [recoverAllWallets, h]
  rw [if_neg hws]
  rfl

/-- Witness for the amended claim C8 at a one-wallet list with nothing
to recover. -/
theorem recover_empty_spec_witness :
    [demoEmptyWallet].length ≠ 0 ∧
    allInstructions "P" [demoEmptyWallet] = [] ∧
    recoverAllWallets "P" 0 [demoEmptyWallet] demoSubmitOk
      = ⟨some "没有可回收的资产", none, []⟩ :=
  ⟨by decide, rfl, recover_empty_spec "P" 0 [demoEmptyWallet] demoSubmitOk (by decide) rfl⟩

end SolTool
